import Mathlib

/-!
Verification of the loot-table economy engine (`loot_table.py`).

The Python source is shallowly embedded below.  Python integers are
modelled as `Nat`/`Int`, gold values (which become floats after partial
stack consumption) as exact rationals `ℚ`, optional fields as `Option`,
and the interactive / random inputs (menu answers, rolled rarities,
chance outcomes, weighted choices) as explicit oracle parameters.
Python's `int(...)` conversion (truncation toward zero) is modelled by
`pyInt`.
-/

namespace LootSim

/-- Functional effect carried by Equipment/Upgrade items (class `Effect`). -/
structure Effect where
  effect_type : String
  value : ℚ
  is_percentage : Bool
deriving DecidableEq, Repr, Inhabited

/-- Monetary enchantment definition (class `Enchantment`); only the fields
relevant to the verified claims are kept. -/
structure Enchantment where
  name : String
  enchant_type : String
  min_value : ℚ
  max_value : ℚ
  is_percentage : Bool
  cost_amount : Nat
deriving DecidableEq, Repr, Inhabited

/-- Item instance (class `LootItem`): `rarity` is `None` unless rolled,
`enchantments` stores (enchantment, rolled value) pairs. -/
structure LootItem where
  name : String
  weight : ℚ
  gold_value : ℚ
  item_type : String
  quantity : Nat
  rarity : Option String := none
  enchantments : List (Enchantment × ℚ) := []
  effects : List Effect := []
deriving DecidableEq, Repr, Inhabited

/-- Queued consumable effect (the dict appended to
`player.active_consumable_effects`). -/
structure ActiveEffect where
  effect_type : String
  name : String
deriving DecidableEq, Repr, Inhabited

/-- Player state (class `Player`).  Gold is an `Int`: the code never
declares it unsigned, and one of the claims is precisely about whether it
can go negative. -/
structure Player where
  name : String
  gold : Int := 0
  inventory : List LootItem := []
  equipped_items : List LootItem := []
  consumed_upgrades : List LootItem := []
  active_consumable_effects : List ActiveEffect := []
deriving DecidableEq, Repr, Inhabited

/-- Python truthiness of `item.enchantments or item.effects or item.rarity`
(`Player.add_item`, line 282). -/
def LootItem.isUnique (it : LootItem) : Bool :=
  !it.enchantments.isEmpty || !it.effects.isEmpty || it.rarity.isSome

/-- Stack-merge test from the scan in `Player.add_item` (lines 288-292):
same name, same type, and the existing stack carries no enchantments,
effects, or rarity. -/
def mergeMatch (existing it : LootItem) : Bool :=
  existing.name == it.name && existing.item_type == it.item_type &&
  existing.enchantments.isEmpty && existing.effects.isEmpty &&
  existing.rarity.isNone

/-- Merge an incoming item into an existing stack (lines 294-295):
quantities and gold values are summed. -/
def mergeInto (existing it : LootItem) : LootItem :=
  { existing with quantity := existing.quantity + it.quantity,
                  gold_value := existing.gold_value + it.gold_value }

/-- Merge scan of `Player.add_item`: fold the incoming non-unique item
into the first matching stack, else append it at the end. -/
def invAddScan (it : LootItem) : List LootItem → List LootItem
  | [] => [it]
  | existing :: rest =>
    if mergeMatch existing it then mergeInto existing it :: rest
    else existing :: invAddScan it rest

/-- Inventory-level `Player.add_item` (lines 279-299). -/
def invAdd (inv : List LootItem) (it : LootItem) : List LootItem :=
  if it.isUnique then inv ++ [it] else invAddScan it inv

/-- Method `Player.add_item`. -/
def Player.addItem (p : Player) (it : LootItem) : Player :=
  { p with inventory := invAdd p.inventory it }

/-- Total quantity of a given item name across all inventory stacks,
as computed by `consume_item_by_name` lines 312-318 (exact, case-sensitive
name equality, no other field consulted). -/
def totalQty (n : String) (inv : List LootItem) : Nat :=
  ((inv.filter (fun it => it.name == n)).map LootItem.quantity).sum

/-- Greedy consumption pass of `consume_item_by_name` (lines 323-345):
walk the stacks in order; a matching stack whose quantity is at most the
remaining need is removed whole; a matching stack with excess is
decremented and its gold value reduced by `value_per_unit * remaining`
(value per unit is `gold_value / quantity`); once the remaining need is
zero nothing further is touched. -/
def consumeGo (n : String) : List LootItem → Nat → List LootItem
  | [], _ => []
  | it :: rest, r =>
    if r = 0 then it :: rest
    else if it.name == n then
      if it.quantity ≤ r then consumeGo n rest (r - it.quantity)
      else { it with quantity := it.quantity - r,
                     gold_value := it.gold_value - it.gold_value / (it.quantity : ℚ) * (r : ℚ) } :: rest
    else it :: consumeGo n rest r

/-- Method `Player.consume_item_by_name` (lines 306-347): check the total
available quantity first, mutating nothing on shortfall. -/
def Player.consumeItemByName (p : Player) (n : String) (count : Nat) : Bool × Player :=
  if totalQty n p.inventory < count then (false, p)
  else (true, { p with inventory := consumeGo n p.inventory count })

/-- Method `Player.add_gold` (lines 483-484): unchecked addition. -/
def Player.addGold (p : Player) (amount : Int) : Player :=
  { p with gold := p.gold + amount }

/-- Method `Player.remove_gold` (lines 486-490): refuses a deduction
larger than the balance. -/
def Player.removeGold (p : Player) (amount : Int) : Bool × Player :=
  if amount ≤ p.gold then (true, { p with gold := p.gold - amount })
  else (false, p)

/-- Admin command `quick_give_gold` (lines 1740-1764): the parsed amount
is passed to `add_gold` without any sign check. -/
def quickGiveGold (p : Player) (amount : Int) : Player :=
  p.addGold amount

/-- Admin command `quick_take_gold` (lines 1767-1793): deduction goes
through `remove_gold`. -/
def quickTakeGold (p : Player) (amount : Int) : Player :=
  (p.removeGold amount).2

/-- Python `int(x)` on a float/rational: truncation toward zero. -/
def pyInt (q : ℚ) : Int :=
  if 0 ≤ q then ⌊q⌋ else ⌈q⌉

/-- Python `str.lower()`, modelled character-wise. -/
def pyLower (s : String) : String :=
  ⟨s.data.map Char.toLower⟩

/-- Accumulating (flat, percentage) sums over one item list for one
effect type, as in the loops of `get_total_draw_cost_reduction` and the
sell-price aggregators. -/
def effectSums (kind : String) (items : List LootItem) (acc : ℚ × ℚ) : ℚ × ℚ :=
  items.foldl
    (fun a it =>
      it.effects.foldl
        (fun b e =>
          if e.effect_type == kind then
            if e.is_percentage then (b.1, b.2 + e.value) else (b.1 + e.value, b.2)
          else b)
        a)
    acc

/-- Method `Player.get_total_draw_cost_reduction` (lines 363-386). -/
def Player.totalDrawCostReduction (p : Player) : ℚ × ℚ :=
  effectSums "draw_cost_reduction" p.consumed_upgrades
    (effectSums "draw_cost_reduction" p.equipped_items (0, 0))

/-- Method `Player.calculate_draw_cost` (lines 388-398): percentage
reduction first, then flat reduction, clamped at 0, truncated last. -/
def Player.calculateDrawCost (p : Player) (base_cost : ℚ) : Int :=
  let fp := p.totalDrawCostReduction
  let cost := base_cost * (1 - fp.2 / 100)
  let cost := max 0 (cost - fp.1)
  pyInt cost

/-- Method `Player.get_double_quantity_chance` (lines 400-416); all
effect values are summed regardless of the percentage flag, capped at
100. -/
def Player.doubleQuantityChance (p : Player) : ℚ :=
  let s := (p.equipped_items ++ p.consumed_upgrades).foldl
    (fun a it =>
      it.effects.foldl
        (fun b e => if e.effect_type == "double_quantity_chance" then b + e.value else b) a)
    0
  min 100 s

/-- Method `Player.get_sell_price_increase` (lines 418-441). -/
def Player.sellPriceIncrease (p : Player) : ℚ × ℚ :=
  effectSums "sell_price_increase" p.consumed_upgrades
    (effectSums "sell_price_increase" p.equipped_items (0, 0))

/-- Method `Player.get_crafted_sell_price_increase` (lines 443-466). -/
def Player.craftedSellPriceIncrease (p : Player) : ℚ × ℚ :=
  effectSums "crafted_sell_price_increase" p.consumed_upgrades
    (effectSums "crafted_sell_price_increase" p.equipped_items (0, 0))

/-- Method `Player.calculate_item_value` (lines 468-481): percentage
increase first, then flat, truncated last. -/
def Player.calculateItemValue (p : Player) (base_value : ℚ) (is_crafted : Bool) : Int :=
  let fp := if is_crafted then p.craftedSellPriceIncrease else p.sellPriceIncrease
  pyInt (base_value * (1 + fp.2 / 100) + fp.1)

/-! ### Crafting (`quick_craft`, lines 1488-1574, one loop iteration) -/

/-- Crafting recipe (class `CraftingRecipe`): `ingredients` is an ordered
multiset of ingredient names. -/
structure CraftingRecipe where
  output_name : String
  output_type : String
  output_gold_value : ℚ
  ingredients : List String := []
deriving DecidableEq, Repr, Inhabited

/-- Required multiplicity of one ingredient name inside a recipe's
ingredient list (the `required_ingredients` dict of lines 1536-1538). -/
def reqCount (n : String) (ings : List String) : Nat :=
  (ings.filter (fun s => s == n)).length

/-- Shortfall check of lines 1541-1547: some distinct ingredient's total
held quantity is below its required multiplicity. -/
def anyIngredientShort (inv : List LootItem) (ings : List String) : Bool :=
  ings.any (fun ing => totalQty ing inv < reqCount ing ings)

/-- Ingredient-consumption pass of `quick_craft` (lines 1557-1558): one
`consume_item_by_name(ingredient, 1)` call per occurrence in the recipe's
ingredient list, return values ignored as in the source. -/
def craftConsume (r : CraftingRecipe) (p : Player) : Player :=
  r.ingredients.foldl (fun q ing => (q.consumeItemByName ing 1).2) p

/-- Fresh output item of line 1561: `LootItem(output_name, 0,
output_gold_value, output_type)` — quantity is the constructor default 1,
no rarity, enchantments, or effects. -/
def craftedTemplate (r : CraftingRecipe) : LootItem :=
  { name := r.output_name, weight := 0, gold_value := r.output_gold_value,
    item_type := r.output_type, quantity := 1 }

/-- Crafted-value adjustment of lines 1563-1567: when any crafted
sell-price modifier is positive the output's gold value is re-priced
through `calculate_item_value`. -/
def craftedOutput (r : CraftingRecipe) (p1 : Player) : LootItem :=
  if 0 < p1.craftedSellPriceIncrease.1 ∨ 0 < p1.craftedSellPriceIncrease.2 then
    { craftedTemplate r with
        gold_value := ((p1.calculateItemValue (craftedTemplate r).gold_value true : Int) : ℚ) }
  else craftedTemplate r

/-- One iteration of `quick_craft`'s crafting loop (lines 1534-1571):
validate every ingredient, consume them one occurrence at a time, then
add the fresh output item. -/
def quickCraftOnce (r : CraftingRecipe) (p : Player) : Bool × Player :=
  if anyIngredientShort p.inventory r.ingredients then (false, p)
  else (true, (craftConsume r p).addItem (craftedOutput r (craftConsume r p)))

/-! ### Effect rolling at craft time (`manage_crafting`, lines 3684-3726) -/

/-- Fixed rarity table of `RaritySystem.__init__` (lines 174-182):
maximum functional-effect slots per tier; `get_max_effects` falls back to
1 for an unknown tier (line 192). -/
def getMaxEffects (rarity : String) : Nat :=
  if rarity == "Normal" then 1
  else if rarity == "Rare" then 2
  else if rarity == "Epic" then 3
  else if rarity == "Legendary" then 5
  else 1

/-- Python truthiness of the `max_effects` local in the roll loop: `None`
is falsy, an integer is truthy iff nonzero (line 3701 `if max_effects and
effects_added >= max_effects`). -/
def capReached (maxEff : Option Nat) (added : Nat) : Bool :=
  match maxEff with
  | none => false
  | some m => m != 0 && m ≤ added

/-- Effect-roll loop of `manage_crafting` (lines 3699-3724).  The
interactive answers are the `choices` list (one `Bool` per prompt, `[]`
once the player gives no further answer), the weighted template draws are
the oracle `rolls`.  Each accepted roll costs `effectCost` gold, stops on
a refused prompt, on insufficient gold, or when the equipment slot cap is
reached. -/
def rollEffectsLoop (effectCost : Int) (maxEff : Option Nat) (rolls : Nat → Effect) :
    List Bool → LootItem → Int → Nat → LootItem × Int × Nat
  | [], it, gold, added => (it, gold, added)
  | c :: cs, it, gold, added =>
    if capReached maxEff added then (it, gold, added)
    else if !c then (it, gold, added)
    else if gold < effectCost then (it, gold, added)
    else
      rollEffectsLoop effectCost maxEff rolls cs
        { it with effects := it.effects ++ [rolls added] }
        (gold - effectCost) (added + 1)

/-- Crafted-equipment path of `manage_crafting` (lines 3684-3690 then the
roll loop): the rarity is rolled once, recorded on the item, and fixes
the slot cap. -/
def craftEquipmentEffects (effectCost : Int) (rolledRarity : String) (rolls : Nat → Effect)
    (choices : List Bool) (it : LootItem) (gold : Int) : LootItem × Int × Nat :=
  rollEffectsLoop effectCost (some (getMaxEffects rolledRarity)) rolls choices
    { it with rarity := some rolledRarity } gold 0

/-- Crafted-upgrade path of `manage_crafting` (line 3685: `max_effects`
stays `None`, so no slot cap applies). -/
def craftUpgradeEffects (effectCost : Int) (rolls : Nat → Effect)
    (choices : List Bool) (it : LootItem) (gold : Int) : LootItem × Int × Nat :=
  rollEffectsLoop effectCost none rolls choices it gold 0

/-! ### Per-item draw processing

Both draw paths process each drawn copy the same way (rarity roll for
rarity-less equipment, optional sell-price boost, then doubling), except
that only the interactive menu path (`draw_items_menu`, lines 2947-3017)
consults the queued consumable effects; the quick command path
(`quick_draw`, lines 1182-1306) does not.  The chance-based doubling roll
and the rarity roll are oracle inputs (`dblRoll`, `rar`). -/

/-- One drawn item together with its two random-oracle outcomes. -/
structure DrawnItem where
  item : LootItem
  dblRoll : Bool
  rar : String
deriving Repr, Inhabited

/-- Shared per-item pipeline of `quick_draw` lines 1260-1280 and
`draw_items_menu` lines 2966-2995, parametrised by whether a queued
`double_next_draw` consumable is active (always `false` on the quick
path). -/
def processDrawnItem (p : Player) (hasDbl : Bool) (d : DrawnItem) : LootItem :=
  let it := d.item
  let it :=
    if pyLower it.item_type == "equipment" && it.rarity.isNone then
      { it with rarity := some d.rar }
    else it
  let fp := p.sellPriceIncrease
  let it :=
    if 0 < fp.1 ∨ 0 < fp.2 then
      { it with gold_value := ((p.calculateItemValue it.gold_value false : Int) : ℚ) }
    else it
  if hasDbl then
    { it with quantity := 2 * it.quantity, gold_value := 2 * it.gold_value }
  else if 0 < p.doubleQuantityChance ∧ d.dblRoll then
    { it with quantity := 2 * it.quantity, gold_value := 2 * it.gold_value }
  else it

/-- Scan of lines 2948-2953: is a `double_next_draw` consumable queued? -/
def hasQueuedDouble (p : Player) : Bool :=
  p.active_consumable_effects.any (fun e => e.effect_type == "double_next_draw")

/-- Item-processing phase of `draw_items_menu` (lines 2947-3017): every
item of the batch is processed and added, then all queued
`double_next_draw` effects are filtered out (line 3016) if one was
active. -/
def menuDrawProcess (p : Player) (draws : List DrawnItem) : Player :=
  let hasDbl := hasQueuedDouble p
  let p1 := draws.foldl (fun q d => q.addItem (processDrawnItem p hasDbl d)) p
  if hasDbl then
    { p1 with active_consumable_effects :=
        p1.active_consumable_effects.filter (fun e => !(e.effect_type == "double_next_draw")) }
  else p1

/-- Item-processing phase of `quick_draw` (lines 1252-1295): identical
pipeline but the queued consumable effects are never consulted and never
removed. -/
def quickDrawProcess (p : Player) (draws : List DrawnItem) : Player :=
  draws.foldl (fun q d => q.addItem (processDrawnItem p false d)) p

/-! ### Loot-table drawing with an explicit store (`LootTable.draw`,
`LootTable.draw_multiple`, lines 523-535)

To make the deep-copy guarantee expressible, item instances live in an
explicit store (modelling the Python heap); a table holds references into
it.  `random.choices` is modelled by an index oracle `pick`; for each of
the `count` draws the chosen template is the table entry at index
`pick i % n` (a weighted choice always returns a member of the
population).  Each drawn template is deep-copied: a fresh store cell is
allocated holding an equal value, and only references to the fresh cells
are returned. -/

/-- The heap of live `LootItem` instances. -/
structure Store where
  cells : List LootItem
deriving Repr, Inhabited

/-- Contents of a store cell. -/
def Store.read (st : Store) (r : Nat) : LootItem :=
  st.cells.getD r default

/-- In-place mutation of a store cell (the caller mutating a drawn item's
quantity/value/rarity/enchantments/effects). -/
def Store.write (st : Store) (r : Nat) (v : LootItem) : Store :=
  ⟨st.cells.set r v⟩

/-- Method `LootTable.draw_multiple` (lines 530-535): empty table yields
no items; otherwise `count` weighted choices are made with replacement
and each is deep-copied before being handed out. -/
def drawMultipleRefs (st : Store) (table : List Nat) (count : Nat) (pick : Nat → Nat) :
    Store × List Nat :=
  if table.isEmpty then (st, [])
  else
    let n := table.length
    let chosen := (List.range count).map (fun i => table.getD (pick i % n) 0)
    let copies := chosen.map st.read
    (⟨st.cells ++ copies⟩, (List.range copies.length).map (fun i => st.cells.length + i))

/-- Method `LootTable.draw` (lines 523-528): `None` on an empty table,
else one deep-copied weighted choice. -/
def drawRef (st : Store) (table : List Nat) (pick : Nat) : Store × Option Nat :=
  if table.isEmpty then (st, none)
  else
    let r := table.getD (pick % table.length) 0
    (⟨st.cells ++ [st.read r]⟩, some st.cells.length)

/-- Stacking condition as the specification words it: some existing
stack has the same name and the same item type, and neither the incoming
item nor that stack carries any enchantment, functional effect, or
rarity tier. -/
def specCanMerge (existing it : LootItem) : Prop :=
  existing.name = it.name ∧ existing.item_type = it.item_type ∧
  existing.enchantments = [] ∧ existing.effects = [] ∧ existing.rarity = none ∧
  it.enchantments = [] ∧ it.effects = [] ∧ it.rarity = none

instance (existing it : LootItem) : Decidable (specCanMerge existing it) := by
  unfold specCanMerge; infer_instance

/-! ### Basic lemmas about the inventory operations -/

theorem isUnique_false_iff (it : LootItem) :
    it.isUnique = false ↔ it.enchantments = [] ∧ it.effects = [] ∧ it.rarity = none := by
  cases h : it.rarity <;>
    simp [LootItem.isUnique, List.isEmpty_iff, h, and_assoc]

theorem mergeMatch_true_iff (existing it : LootItem) :
    mergeMatch existing it = true ↔
      existing.name = it.name ∧ existing.item_type = it.item_type ∧
      existing.enchantments = [] ∧ existing.effects = [] ∧ existing.rarity = none := by
  simp [mergeMatch, List.isEmpty_iff, Option.isNone_iff_eq_none, and_assoc]

theorem specCanMerge_iff (existing it : LootItem) :
    specCanMerge existing it ↔ mergeMatch existing it = true ∧ it.isUnique = false := by
  rw [mergeMatch_true_iff, isUnique_false_iff, specCanMerge]
  tauto

theorem invAddScan_no_match (it : LootItem) (inv : List LootItem)
    (h : ∀ ex ∈ inv, mergeMatch ex it = false) :
    invAddScan it inv = inv ++ [it] := by
  induction inv with
  | nil => rfl
  | cons hd tl ih =>
    have hhd := h hd (List.mem_cons_self hd tl)
    simp only [invAddScan, hhd, Bool.false_eq_true, if_false, List.cons_append,
      List.cons.injEq, true_and]
    exact ih fun ex hex => h ex (List.mem_cons_of_mem hd hex)

theorem invAddScan_first_match (it : LootItem) (pre : List LootItem) (ex : LootItem)
    (post : List LootItem) (hpre : ∀ e ∈ pre, mergeMatch e it = false)
    (hex : mergeMatch ex it = true) :
    invAddScan it (pre ++ ex :: post) = pre ++ mergeInto ex it :: post := by
  induction pre with
  | nil => simp [invAddScan, hex]
  | cons hd tl ih =>
    have hhd := hpre hd (List.mem_cons_self hd tl)
    simp only [List.cons_append, invAddScan, hhd, Bool.false_eq_true, if_false,
      List.cons.injEq, true_and]
    exact ih fun e he => hpre e (List.mem_cons_of_mem hd he)

theorem invAddScan_length (it : LootItem) (inv : List LootItem) :
    (invAddScan it inv).length =
      if inv.any (fun ex => mergeMatch ex it) then inv.length else inv.length + 1 := by
  induction inv with
  | nil => simp [invAddScan]
  | cons hd tl ih =>
    by_cases h : mergeMatch hd it = true
    · simp [invAddScan, h]
    · simp only [Bool.not_eq_true] at h
      simp only [invAddScan, h, Bool.false_eq_true, if_false, List.length_cons, ih,
        List.any_cons, Bool.false_or]
      split <;> rfl

/-! ### Claim C1: stacking behaviour of `Player.add_item` -/

/-- C1.  For every inventory and incoming item, `Player.add_item` merges
the item into an existing stack iff some stack matches by name and type
and neither the incoming item nor that stack carries any enchantment,
effect, or rarity; the merge adds quantity and gold value onto the first
such stack; in every other case — in particular whenever the incoming
item has enchantments, effects, or a rarity — the item is appended as a
new stack and no existing stack is modified. -/
theorem add_item_stacking_spec (p : Player) (it : LootItem) :
    (it.isUnique = true → p.addItem it = { p with inventory := p.inventory ++ [it] }) ∧
    (it.isUnique = false →
      (∀ pre ex post, p.inventory = pre ++ ex :: post →
        (∀ e ∈ pre, mergeMatch e it = false) → mergeMatch ex it = true →
        p.addItem it = { p with inventory := pre ++ mergeInto ex it :: post }) ∧
      ((∀ ex ∈ p.inventory, mergeMatch ex it = false) →
        p.addItem it = { p with inventory := p.inventory ++ [it] })) ∧
    ((p.addItem it).inventory.length = p.inventory.length ↔
      ∃ ex ∈ p.inventory, specCanMerge ex it) := by
  refine ⟨fun hu => ?_, fun hnu => ⟨?_, ?_⟩, ?_⟩
  · simp [Player.addItem, invAdd, hu]
  · intro pre ex post hsplit hpre hex
    simp [Player.addItem, invAdd, hnu, hsplit, invAddScan_first_match it pre ex post hpre hex]
  · intro hall
    simp [Player.addItem, invAdd, hnu, invAddScan_no_match it p.inventory hall]
  · by_cases hu : it.isUnique = true
    · simp only [Player.addItem, invAdd, hu, if_true, List.length_append, List.length_cons,
        List.length_nil]
      constructor
      · omega
      · rintro ⟨ex, _, hm⟩
        rw [specCanMerge_iff] at hm
        rw [hu] at hm
        exact absurd hm.2 (by simp)
    · simp only [Bool.not_eq_true] at hu
      simp only [Player.addItem, invAdd, hu, Bool.false_eq_true, if_false,
        invAddScan_length]
      constructor
      · intro hlen
        by_cases hany : p.inventory.any (fun ex => mergeMatch ex it) = true
        · rcases List.any_eq_true.1 hany with ⟨ex, hmem, hm⟩
          exact ⟨ex, hmem, (specCanMerge_iff ex it).2 ⟨hm, hu⟩⟩
        · rw [if_neg (by simpa using hany)] at hlen
          omega
      · rintro ⟨ex, hmem, hm⟩
        rw [specCanMerge_iff] at hm
        have hany : p.inventory.any (fun ex => mergeMatch ex it) = true :=
          List.any_eq_true.2 ⟨ex, hmem, hm.1⟩
        rw [if_pos hany]

/-- C1 witness: the spec's stack-conservation example — adding
`X qty=2 val=20` to an inventory holding `X qty=3 val=30` yields the
single stack `X qty=5 val=50`. -/
theorem add_item_stacking_spec_witness :
    let x3 : LootItem := { name := "X", weight := 0, gold_value := 30,
                           item_type := "misc", quantity := 3 }
    let x2 : LootItem := { name := "X", weight := 0, gold_value := 20,
                           item_type := "misc", quantity := 2 }
    let p : Player := { name := "A", inventory := [x3] }
    p.addItem x2 = { p with inventory := [{ x3 with quantity := 5, gold_value := 50 }] } := by
  intro x3 x2 p
  have h := (add_item_stacking_spec p x2).2.1 (by decide)
  have h2 := h.1 [] x3 [] rfl (by intro e he; cases he) (by decide)
  rw [h2]
  simp only [mergeInto, List.nil_append, Player.mk.injEq, LootItem.mk.injEq]
  norm_num

/-! ### Lemmas about `consume_item_by_name` -/

theorem consumeGo_zero (n : String) (l : List LootItem) : consumeGo n l 0 = l := by
  cases l <;> simp [consumeGo]

theorem totalQty_nil (n : String) : totalQty n [] = 0 := rfl

theorem totalQty_cons (n : String) (it : LootItem) (rest : List LootItem) :
    totalQty n (it :: rest) =
      (if it.name == n then it.quantity else 0) + totalQty n rest := by
  by_cases h : it.name == n <;> simp [totalQty, List.filter_cons, h]

theorem totalQty_append (n : String) (a b : List LootItem) :
    totalQty n (a ++ b) = totalQty n a + totalQty n b := by
  simp [totalQty, List.filter_append]

theorem totalQty_consumeGo_other (m n : String) (h : m ≠ n) :
    ∀ (inv : List LootItem) (r : Nat), totalQty m (consumeGo n inv r) = totalQty m inv := by
  intro inv
  induction inv with
  | nil => intro r; rfl
  | cons it rest ih =>
    intro r
    by_cases hr : r = 0
    · simp [consumeGo, hr]
    · by_cases hn : it.name == n
      · have hne : (it.name == m) = false := by
          have : it.name = n := by simpa using hn
          simp [this, (Ne.symm h)]
        by_cases hq : it.quantity ≤ r
        · simp [consumeGo, hr, hn, hq, totalQty_cons, hne, ih]
        · simp [consumeGo, hr, hn, hq, totalQty_cons, hne]
      · simp [consumeGo, hr, hn, totalQty_cons, ih]

theorem totalQty_consumeGo (n : String) :
    ∀ (inv : List LootItem) (r : Nat), r ≤ totalQty n inv →
      totalQty n (consumeGo n inv r) = totalQty n inv - r := by
  intro inv
  induction inv with
  | nil =>
    intro r hr
    simp only [totalQty_nil, Nat.le_zero] at hr
    subst hr
    simp [consumeGo, totalQty_nil]
  | cons it rest ih =>
    intro r hr
    by_cases hr0 : r = 0
    · subst hr0; rw [consumeGo_zero]; omega
    · by_cases hn : (it.name == n) = true
      · rw [totalQty_cons, if_pos hn] at hr
        by_cases hq : it.quantity ≤ r
        · have e : consumeGo n (it :: rest) r = consumeGo n rest (r - it.quantity) := by
            simp [consumeGo, hr0, hn, hq]
          rw [e, ih (r - it.quantity) (by omega), totalQty_cons, if_pos hn]
          omega
        · have e : consumeGo n (it :: rest) r =
              { it with quantity := it.quantity - r,
                        gold_value := it.gold_value -
                          it.gold_value / (it.quantity : ℚ) * (r : ℚ) } :: rest := by
            simp [consumeGo, hr0, hn, hq]
          rw [e]
          simp only [totalQty_cons, hn, if_true]
          omega
      · have hname : (it.name == n) = false := by simpa using hn
        have e : consumeGo n (it :: rest) r = it :: consumeGo n rest r := by
          simp [consumeGo, hr0, hname]
        rw [totalQty_cons] at hr
        simp only [hname, Bool.false_eq_true, if_false, Nat.zero_add] at hr
        rw [e]
        simp only [totalQty_cons, hname, Bool.false_eq_true, if_false, Nat.zero_add]
        exact ih r hr

/-! ### Claim C2: failure of `consume_item_by_name` leaves the inventory
byte-for-byte unchanged -/

/-- C2.  Whenever the summed quantity over all stacks named `n` is below
the requested count, `Player.consume_item_by_name` returns `False` and
the player — in particular the full ordered inventory list, every stack's
quantity and gold value — is exactly the input state. -/
theorem consume_by_name_shortfall (p : Player) (n : String) (count : Nat)
    (h : totalQty n p.inventory < count) :
    p.consumeItemByName n count = (false, p) := by
  simp [Player.consumeItemByName, h]

/-- C2 witness: the spec's example — 4 Ore held across two stacks, 5
requested, the call fails and the inventory is untouched. -/
theorem consume_by_name_shortfall_witness :
    let ore1 : LootItem := { name := "Ore", weight := 0, gold_value := 30,
                             item_type := "misc", quantity := 3 }
    let ore2 : LootItem := { name := "Ore", weight := 0, gold_value := 10,
                             item_type := "misc", quantity := 1 }
    let p : Player := { name := "A", inventory := [ore1, ore2] }
    p.consumeItemByName "Ore" 5 = (false, p) := by
  intro ore1 ore2 p
  exact consume_by_name_shortfall p "Ore" 5 (by decide)

/-! ### Claim C3: greedy consumption with exact value proration -/

/-- C3.  On a successful consume, stacks are consumed greedily in
inventory order: a matching stack whose quantity is at most the remaining
need is removed whole; the one matching stack with excess keeps the rest
of the inventory intact and has its quantity reduced by the remaining
need and its gold value reduced by exactly `(gold_value / quantity) *
remaining`; once nothing remains to consume no further stack is touched;
removed value plus remaining value equals the original value; and a
single stack `qty=10 val=100` consuming 3 is left at `qty=7 val=70`. -/
theorem consume_by_name_greedy_proration :
    (∀ (n : String) (r : Nat) (it : LootItem) (rest : List LootItem),
      it.name = n → 0 < r → it.quantity ≤ r →
      consumeGo n (it :: rest) r = consumeGo n rest (r - it.quantity)) ∧
    (∀ (n : String) (r : Nat) (it : LootItem) (rest : List LootItem),
      it.name = n → 0 < r → r < it.quantity →
      consumeGo n (it :: rest) r =
        { it with quantity := it.quantity - r,
                  gold_value := it.gold_value - it.gold_value / (it.quantity : ℚ) * (r : ℚ) }
          :: rest) ∧
    (∀ (n : String) (l : List LootItem), consumeGo n l 0 = l) ∧
    (∀ (it : LootItem) (r : Nat),
      (it.gold_value - it.gold_value / (it.quantity : ℚ) * (r : ℚ)) +
        it.gold_value / (it.quantity : ℚ) * (r : ℚ) = it.gold_value) ∧
    (let ore : LootItem := { name := "Ore", weight := 0, gold_value := 100,
                             item_type := "misc", quantity := 10 }
     let p : Player := { name := "A", inventory := [ore] }
     p.consumeItemByName "Ore" 3 =
       (true, { p with inventory := [{ ore with quantity := 7, gold_value := 70 }] })) := by
  refine ⟨?_, ?_, consumeGo_zero, ?_, ?_⟩
  · intro n r it rest hname hr hq
    simp [consumeGo, Nat.pos_iff_ne_zero.1 hr, hname, hq]
  · intro n r it rest hname hr hq
    simp [consumeGo, Nat.pos_iff_ne_zero.1 hr, hname, Nat.not_le.2 hq]
  · intro it r; ring
  · intro ore p
    simp only [Player.consumeItemByName, totalQty, List.filter, consumeGo]
    norm_num

/-- C3 witness: the partial-stack case of the theorem applied at the
concrete stack `qty=10 val=100` with need 3. -/
theorem consume_by_name_greedy_proration_witness :
    consumeGo "Ore"
        [{ name := "Ore", weight := 0, gold_value := 100,
           item_type := "misc", quantity := 10 }] 3 =
      [{ name := "Ore", weight := 0, gold_value := 70,
         item_type := "misc", quantity := 7 }] := by
  have h := consume_by_name_greedy_proration.2.1 "Ore" 3
    { name := "Ore", weight := 0, gold_value := 100, item_type := "misc", quantity := 10 } []
    rfl (by norm_num) (by norm_num)
  rw [h]
  norm_num [List.cons.injEq, LootItem.mk.injEq]

/-! ### Claim C5: crafting atomicity (`quick_craft`) -/

theorem totalQty_invAdd (m : String) (inv : List LootItem) (it : LootItem) :
    totalQty m (invAdd inv it) =
      totalQty m inv + (if it.name == m then it.quantity else 0) := by
  rw [invAdd]
  by_cases hu : it.isUnique = true
  · rw [if_pos hu, totalQty_append, totalQty_cons, totalQty_nil]
    omega
  · rw [if_neg hu]
    induction inv with
    | nil =>
      rw [invAddScan]
      rw [totalQty_cons, totalQty_nil]
      omega
    | cons hd tl ih =>
      by_cases hm : mergeMatch hd it = true
      · have hn : hd.name = it.name := ((mergeMatch_true_iff hd it).1 hm).1
        rw [invAddScan, if_pos hm, totalQty_cons, totalQty_cons, mergeInto]
        by_cases hx : (it.name == m) = true
        · have : (hd.name == m) = true := by rw [hn]; exact hx
          simp only [this, hx, if_true]
          omega
        · have hxf : (it.name == m) = false := by simpa using hx
          have : (hd.name == m) = false := by rw [hn]; exact hxf
          simp only [this, hxf, Bool.false_eq_true, if_false]
          omega
      · have hmf : mergeMatch hd it = false := by simpa using hm
        rw [invAddScan, if_neg (by simp [hmf]), totalQty_cons, totalQty_cons, ih]
        omega

/-- Consuming the ingredient multiset one occurrence at a time
(`quick_craft` lines 1557-1558) removes exactly the required multiplicity
of every name, provided every ingredient was sufficiently held. -/
theorem totalQty_foldConsume :
    ∀ (ings : List String) (p : Player),
      (∀ ing ∈ ings, reqCount ing ings ≤ totalQty ing p.inventory) →
      ∀ m, totalQty m ((ings.foldl (fun q ing => (q.consumeItemByName ing 1).2) p).inventory) =
        totalQty m p.inventory - reqCount m ings := by
  intro ings
  induction ings with
  | nil =>
    intro p _ m
    simp [reqCount]
  | cons ing rest ih =>
    intro p hsuff m
    have hing : 1 ≤ totalQty ing p.inventory := by
      have h := hsuff ing (List.mem_cons_self ing rest)
      have : 1 ≤ reqCount ing (ing :: rest) := by
        simp [reqCount, List.filter_cons]
      omega
    have hstep : (p.consumeItemByName ing 1).2 =
        { p with inventory := consumeGo ing p.inventory 1 } := by
      rw [Player.consumeItemByName, if_neg (by omega)]
    have hq1 : ∀ x, totalQty x (consumeGo ing p.inventory 1) =
        totalQty x p.inventory - (if x = ing then 1 else 0) := by
      intro x
      by_cases hx : x = ing
      · subst hx
        rw [totalQty_consumeGo x p.inventory 1 hing, if_pos rfl]
      · rw [totalQty_consumeGo_other x ing hx, if_neg hx]
        omega
    have hreq : ∀ x, reqCount x (ing :: rest) =
        (if x = ing then 1 else 0) + reqCount x rest := by
      intro x
      by_cases hx : x = ing
      · subst hx
        simp [reqCount, List.filter_cons]
        omega
      · simp [reqCount, List.filter_cons, Ne.symm hx, hx]
    rw [List.foldl_cons, hstep]
    rw [ih { p with inventory := consumeGo ing p.inventory 1 } ?_ m]
    · rw [hq1 m, hreq m]
      omega
    · intro x hx
      have hs := hsuff x (List.mem_cons_of_mem ing hx)
      rw [hreq x] at hs
      show reqCount x rest ≤ totalQty x (consumeGo ing p.inventory 1)
      rw [hq1 x]
      by_cases hxe : x = ing <;> simp [hxe] at hs ⊢ <;> omega

/-- C5.  A craft attempt with any ingredient shortfall fails and leaves
the player untouched; a craft attempt with every ingredient sufficiently
held succeeds, removes exactly the recipe's required multiset of
ingredient quantities, and adds exactly one output item whose quantity is
the template default 1. -/
theorem quick_craft_atomic (r : CraftingRecipe) (p : Player) :
    ((∃ ing ∈ r.ingredients, totalQty ing p.inventory < reqCount ing r.ingredients) →
      quickCraftOnce r p = (false, p)) ∧
    ((∀ ing ∈ r.ingredients, reqCount ing r.ingredients ≤ totalQty ing p.inventory) →
      (quickCraftOnce r p).1 = true ∧
      (∀ m, m ≠ r.output_name →
        totalQty m (quickCraftOnce r p).2.inventory =
          totalQty m p.inventory - reqCount m r.ingredients) ∧
      totalQty r.output_name (quickCraftOnce r p).2.inventory =
        (totalQty r.output_name p.inventory - reqCount r.output_name r.ingredients) + 1) := by
  have hOutName : ∀ p1, (craftedOutput r p1).name = r.output_name := by
    intro p1; rw [craftedOutput]; split <;> rfl
  have hOutQty : ∀ p1, (craftedOutput r p1).quantity = 1 := by
    intro p1; rw [craftedOutput]; split <;> rfl
  constructor
  · rintro ⟨ing, hmem, hlt⟩
    have : anyIngredientShort p.inventory r.ingredients = true :=
      List.any_eq_true.2 ⟨ing, hmem, by simpa using hlt⟩
    rw [quickCraftOnce, if_pos this]
  · intro hsuff
    have hshort : anyIngredientShort p.inventory r.ingredients = false := by
      rw [anyIngredientShort, List.any_eq_false]
      intro ing hmem
      simp only [decide_eq_true_eq, not_lt]
      exact hsuff ing hmem
    have hfold := totalQty_foldConsume r.ingredients p hsuff
    rw [quickCraftOnce, if_neg (by simp [hshort])]
    refine ⟨rfl, ?_, ?_⟩
    · intro m hm
      show totalQty m ((craftConsume r p).addItem (craftedOutput r (craftConsume r p))).inventory = _
      rw [Player.addItem]
      show totalQty m (invAdd (craftConsume r p).inventory (craftedOutput r (craftConsume r p))) = _
      rw [totalQty_invAdd]
      have : ((craftedOutput r (craftConsume r p)).name == m) = false := by
        rw [hOutName]
        simpa using Ne.symm hm
      rw [this]
      simp only [Bool.false_eq_true, if_false, Nat.add_zero]
      exact hfold m
    · show totalQty r.output_name
          ((craftConsume r p).addItem (craftedOutput r (craftConsume r p))).inventory = _
      rw [Player.addItem]
      show totalQty r.output_name
          (invAdd (craftConsume r p).inventory (craftedOutput r (craftConsume r p))) = _
      rw [totalQty_invAdd]
      have : ((craftedOutput r (craftConsume r p)).name == r.output_name) = true := by
        rw [hOutName]; simp
      rw [this]
      simp only [if_true, hOutQty]
      have hfoldc : totalQty r.output_name (craftConsume r p).inventory =
          totalQty r.output_name p.inventory - reqCount r.output_name r.ingredients :=
        hfold r.output_name
      rw [hfoldc]

/-- C5 witness: crafting an Ingot from 2x Ore out of a 3-Ore stack
succeeds, leaves 1 Ore, and adds exactly one Ingot. -/
theorem quick_craft_atomic_witness :
    let rcp : CraftingRecipe := { output_name := "Ingot", output_type := "misc",
                                  output_gold_value := 5, ingredients := ["Ore", "Ore"] }
    let p : Player := { name := "A", inventory :=
      [{ name := "Ore", weight := 0, gold_value := 30, item_type := "misc", quantity := 3 }] }
    (quickCraftOnce rcp p).1 = true ∧
    totalQty "Ore" (quickCraftOnce rcp p).2.inventory = 1 ∧
    totalQty "Ingot" (quickCraftOnce rcp p).2.inventory = 1 := by
  intro rcp p
  have h := (quick_craft_atomic rcp p).2 (by decide)
  refine ⟨h.1, ?_, ?_⟩
  · rw [h.2.1 "Ore" (by decide)]
    decide
  · rw [h.2.2]
    decide

/-! ### Claim C4: draw-cost composition order -/

/-- Flat draw-cost-style contribution of one effect list, as the spec
words it: the sum of the flat values of the `kind` effects. -/
def flatOf (kind : String) (es : List Effect) : ℚ :=
  ((es.filter (fun e => e.effect_type == kind && !e.is_percentage)).map Effect.value).sum

/-- Percentage counterpart of `flatOf`. -/
def pctOf (kind : String) (es : List Effect) : ℚ :=
  ((es.filter (fun e => e.effect_type == kind && e.is_percentage)).map Effect.value).sum

/-- Ingredients of the spec-side draw-cost formula: the summed flat
values of all `draw_cost_reduction` effects on the player's equipped
items and consumed upgrades. -/
def specFlatReduction (p : Player) : ℚ :=
  (((p.equipped_items ++ p.consumed_upgrades).map
    (fun it => flatOf "draw_cost_reduction" it.effects)).sum)

/-- Summed percentage values of all `draw_cost_reduction` effects on the
player's equipped items and consumed upgrades. -/
def specPctReduction (p : Player) : ℚ :=
  (((p.equipped_items ++ p.consumed_upgrades).map
    (fun it => pctOf "draw_cost_reduction" it.effects)).sum)

theorem foldl_effects_eq (kind : String) (es : List Effect) :
    ∀ acc : ℚ × ℚ,
      es.foldl
        (fun b e =>
          if e.effect_type == kind then
            if e.is_percentage then (b.1, b.2 + e.value) else (b.1 + e.value, b.2)
          else b) acc =
      (acc.1 + flatOf kind es, acc.2 + pctOf kind es) := by
  induction es with
  | nil => intro acc; simp [flatOf, pctOf]
  | cons e rest ih =>
    intro acc
    rw [List.foldl_cons, ih]
    by_cases hk : (e.effect_type == kind) = true
    · by_cases hp : e.is_percentage = true
      · simp [hk, hp, flatOf, pctOf, List.filter_cons]
        ring
      · have hp' : e.is_percentage = false := by simpa using hp
        simp [hk, hp', flatOf, pctOf, List.filter_cons]
        ring
    · have hk' : (e.effect_type == kind) = false := by simpa using hk
      simp [hk', flatOf, pctOf, List.filter_cons]

theorem effectSums_eq (kind : String) (items : List LootItem) :
    ∀ acc : ℚ × ℚ,
      effectSums kind items acc =
        (acc.1 + (items.map (fun it => flatOf kind it.effects)).sum,
         acc.2 + (items.map (fun it => pctOf kind it.effects)).sum) := by
  induction items with
  | nil => intro acc; simp [effectSums]
  | cons it rest ih =>
    intro acc
    rw [effectSums, List.foldl_cons]
    rw [show ∀ l a, List.foldl
        (fun (a : ℚ × ℚ) (it : LootItem) =>
          it.effects.foldl (fun b e =>
            if e.effect_type == kind then
              if e.is_percentage then (b.1, b.2 + e.value) else (b.1 + e.value, b.2)
            else b) a) a l = effectSums kind l a from fun _ _ => rfl]
    rw [ih, foldl_effects_eq]
    simp only [List.map_cons, List.sum_cons, Prod.mk.injEq]
    exact ⟨by ring, by ring⟩

/-- The code's accumulating aggregation agrees with the spec-side sums. -/
theorem totalDrawCostReduction_eq (p : Player) :
    p.totalDrawCostReduction = (specFlatReduction p, specPctReduction p) := by
  rw [Player.totalDrawCostReduction, effectSums_eq, effectSums_eq]
  simp [specFlatReduction, specPctReduction, List.map_append, List.sum_append]

/-- C4 example player: one equipped item carrying a flat 10 and a 20%
draw-cost reduction. -/
def examplePlayerC4 : Player :=
  { name := "B", equipped_items :=
    [{ name := "Hat", weight := 0, gold_value := 0, item_type := "equipment", quantity := 1,
       effects := [{ effect_type := "draw_cost_reduction", value := 10, is_percentage := false },
                   { effect_type := "draw_cost_reduction", value := 20, is_percentage := true }] }] }

/-- C4.  For every player and non-negative base cost, the actual draw
cost is `floor (max 0 (base * (1 - percent/100) - flat))` with flat and
percent the summed flat/percentage `draw_cost_reduction` effect values
over equipped items and consumed upgrades — percentage before flat,
clamped at 0, truncated only at the end; with flat=10, percent=20 and
base 100 the result is 70. -/
theorem calculate_draw_cost_spec (p : Player) (base : ℚ) (hb : 0 ≤ base) :
    p.calculateDrawCost base =
      ⌊max 0 (base * (1 - specPctReduction p / 100) - specFlatReduction p)⌋ ∧
    examplePlayerC4.calculateDrawCost 100 = 70 := by
  constructor
  · rw [Player.calculateDrawCost, totalDrawCostReduction_eq]
    rw [pyInt, if_pos (le_max_left 0 _)]
  · rw [Player.calculateDrawCost, totalDrawCostReduction_eq]
    rw [pyInt, if_pos (le_max_left 0 _)]
    have h1 : specPctReduction examplePlayerC4 = 20 := by
      simp [specPctReduction, examplePlayerC4, pctOf, List.filter]
    have h2 : specFlatReduction examplePlayerC4 = 10 := by
      simp [specFlatReduction, examplePlayerC4, flatOf, List.filter]
    rw [h1, h2]
    norm_num

/-- C4 witness: the theorem applied at the example player and base cost
100, discharging the non-negativity hypothesis. -/
theorem calculate_draw_cost_spec_witness :
    (0 : ℚ) ≤ 100 ∧ examplePlayerC4.calculateDrawCost 100 = 70 :=
  ⟨by norm_num, (calculate_draw_cost_spec examplePlayerC4 100 (by norm_num)).2⟩

/-! ### Claim C6: rarity slot cap on freshly crafted equipment -/

theorem rollLoop_rarity (cost : Int) (maxEff : Option Nat) (rolls : Nat → Effect) :
    ∀ (choices : List Bool) (it : LootItem) (gold : Int) (added : Nat),
      (rollEffectsLoop cost maxEff rolls choices it gold added).1.rarity = it.rarity := by
  intro choices
  induction choices with
  | nil => intro it gold added; rfl
  | cons c cs ih =>
    intro it gold added
    simp only [rollEffectsLoop]
    split
    · rfl
    · split
      · rfl
      · split
        · rfl
        · rw [ih]

theorem rollLoop_len (cost : Int) (maxEff : Option Nat) (rolls : Nat → Effect) :
    ∀ (choices : List Bool) (it : LootItem) (gold : Int) (added : Nat),
      it.effects.length = added →
      (rollEffectsLoop cost maxEff rolls choices it gold added).1.effects.length =
        (rollEffectsLoop cost maxEff rolls choices it gold added).2.2 := by
  intro choices
  induction choices with
  | nil => intro it gold added h; exact h
  | cons c cs ih =>
    intro it gold added h
    simp only [rollEffectsLoop]
    split
    · exact h
    · split
      · exact h
      · split
        · exact h
        · exact ih _ _ _ (by simp [h])

theorem rollLoop_cap (cost : Int) (rolls : Nat → Effect) (m : Nat) (hm : m ≠ 0) :
    ∀ (choices : List Bool) (it : LootItem) (gold : Int) (added : Nat),
      added ≤ m →
      (rollEffectsLoop cost (some m) rolls choices it gold added).2.2 ≤ m := by
  intro choices
  induction choices with
  | nil => intro it gold added h; exact h
  | cons c cs ih =>
    intro it gold added h
    simp only [rollEffectsLoop]
    by_cases hcap : capReached (some m) added = true
    · rw [if_pos hcap]; exact h
    · rw [if_neg hcap]
      have hlt : added < m := by
        simp only [capReached, Bool.and_eq_true, bne_iff_ne, ne_eq, decide_eq_true_eq,
          not_and, Bool.not_eq_true] at hcap
        rcases Nat.lt_or_ge added m with h1 | h1
        · exact h1
        · exact absurd (by simpa using hcap hm) (by omega)
      split
      · exact h
      · split
        · exact h
        · exact ih _ _ _ (by omega)

theorem rollLoop_uncapped (cost : Int) (rolls : Nat → Effect) (hc : 0 ≤ cost) :
    ∀ (k : Nat) (it : LootItem) (gold : Int) (added : Nat),
      cost * (k : Int) ≤ gold →
      (rollEffectsLoop cost none rolls (List.replicate k true) it gold added).2.2 =
        added + k := by
  intro k
  induction k with
  | zero => intro it gold added _; simp [rollEffectsLoop]
  | succ k ih =>
    intro it gold added hg
    rw [List.replicate_succ]
    simp only [rollEffectsLoop, capReached]
    rw [if_neg (by simp)]
    rw [if_neg (by simp)]
    have hck : cost ≤ gold := by
      have h1 : cost * (1 : Int) ≤ cost * ((k : Int) + 1) := by
        apply mul_le_mul_of_nonneg_left _ hc
        omega
      have h2 : cost * ((k : Int) + 1) ≤ gold := by
        have : ((k + 1 : Nat) : Int) = (k : Int) + 1 := by push_cast; ring
        rw [this] at hg
        exact hg
      omega
    rw [if_neg (by omega)]
    rw [ih _ (gold - cost) (added + 1) (by
      have : cost * ((k : Int) + 1) ≤ gold := by
        have hcast : ((k + 1 : Nat) : Int) = (k : Int) + 1 := by push_cast; ring
        rw [hcast] at hg
        exact hg
      nlinarith)]
    omega

/-- C6.  A freshly crafted equipment item records its rolled rarity, and
however the player answers the prompts and however much gold they hold,
the number of functional effects it receives never exceeds the rolled
rarity's slot count — Normal 1, Rare 2, Epic 3, Legendary 5; a freshly
crafted upgrade item has no slot cap: for every `n` there are answers and
a bankroll yielding exactly `n` effects. -/
theorem craft_effect_slot_cap :
    (∀ (rarity : String) (cost : Int) (rolls : Nat → Effect) (choices : List Bool)
       (it : LootItem) (gold : Int),
      it.effects = [] →
      (craftEquipmentEffects cost rarity rolls choices it gold).1.effects.length ≤
        getMaxEffects rarity ∧
      (craftEquipmentEffects cost rarity rolls choices it gold).1.rarity = some rarity) ∧
    (getMaxEffects "Normal" = 1 ∧ getMaxEffects "Rare" = 2 ∧
     getMaxEffects "Epic" = 3 ∧ getMaxEffects "Legendary" = 5) ∧
    (∀ (n : Nat) (cost : Int) (rolls : Nat → Effect) (it : LootItem),
      0 ≤ cost → it.effects = [] →
      (craftUpgradeEffects cost rolls (List.replicate n true) it (cost * (n : Int))).1.effects.length
        = n) := by
  refine ⟨?_, ⟨rfl, rfl, rfl, rfl⟩, ?_⟩
  · intro rarity cost rolls choices it gold h0
    have hm : getMaxEffects rarity ≠ 0 := by
      rw [getMaxEffects]
      split
      · omega
      · split
        · omega
        · split
          · omega
          · split <;> omega
    constructor
    · rw [craftEquipmentEffects,
        rollLoop_len cost (some (getMaxEffects rarity)) rolls choices _ gold 0 (by simp [h0])]
      exact rollLoop_cap cost rolls (getMaxEffects rarity) hm choices _ gold 0 (by omega)
    · rw [craftEquipmentEffects, rollLoop_rarity]
  · intro n cost rolls it hc h0
    rw [craftUpgradeEffects,
      rollLoop_len cost none rolls (List.replicate n true) it (cost * (n : Int)) 0 (by simp [h0]),
      rollLoop_uncapped cost rolls hc n it (cost * (n : Int)) 0 le_rfl]
    omega

/-- C6 witness: a Normal-rarity crafted item with three eager answers and
ample gold ends with exactly its 1-effect cap, and an upgrade with three
answers gets all 3 effects. -/
theorem craft_effect_slot_cap_witness :
    let e : Effect := { effect_type := "draw_cost_reduction", value := 1, is_percentage := false }
    let it : LootItem := { name := "Sword", weight := 0, gold_value := 0,
                           item_type := "equipment", quantity := 1 }
    (craftEquipmentEffects 100 "Normal" (fun _ => e) [true, true, true] it 1000).1.effects.length ≤
      getMaxEffects "Normal" ∧
    (craftUpgradeEffects 100 (fun _ => e) [true, true, true] it (100 * 3)).1.effects.length = 3 := by
  intro e it
  constructor
  · exact ((craft_effect_slot_cap.1 "Normal" 100 (fun _ => e) [true, true, true] it 1000) rfl).1
  · exact craft_effect_slot_cap.2.2 3 100 (fun _ => e) it (by norm_num) rfl

/-! ### Claim C10: consumption selects stacks by exact name only -/

/-- C10.  `consume_item_by_name` selects stacks solely by exact,
case-sensitive name equality: a stack whose name matches is counted
toward the available total and consumed whatever its item type,
enchantments, effects, or rarity — a unique stack in head position is
destroyed whole when its quantity equals the need — while a stack whose
name differs (even only by case) is neither counted nor touched; in
particular a craft needing 1 Ore silently destroys a Legendary enchanted
equipment item named Ore. -/
theorem consume_by_name_exact_name_only :
    (∀ (n : String) (it : LootItem) (rest : List LootItem),
      it.name = n → totalQty n (it :: rest) = it.quantity + totalQty n rest) ∧
    (∀ (p : Player) (n : String) (it : LootItem) (rest : List LootItem),
      p.inventory = it :: rest → it.name = n → 0 < it.quantity →
      p.consumeItemByName n it.quantity = (true, { p with inventory := rest })) ∧
    (∀ (n : String) (it : LootItem) (rest : List LootItem) (r : Nat),
      it.name ≠ n →
      consumeGo n (it :: rest) r = it :: consumeGo n rest r ∧
      totalQty n (it :: rest) = totalQty n rest) ∧
    (let ench : Enchantment := { name := "Sharp", enchant_type := "equipment",
                                 min_value := 0, max_value := 100, is_percentage := false,
                                 cost_amount := 1 }
     let oreU : LootItem := { name := "Ore", weight := 0, gold_value := 500,
                              item_type := "equipment", quantity := 1,
                              rarity := some "Legendary", enchantments := [(ench, 50)] }
     let rcp : CraftingRecipe := { output_name := "Ingot", output_type := "misc",
                                   output_gold_value := 5, ingredients := ["Ore"] }
     let p : Player := { name := "A", inventory := [oreU] }
     quickCraftOnce rcp p = (true, { p with inventory := [craftedTemplate rcp] })) := by
  refine ⟨?_, ?_, ?_, ?_⟩
  · intro n it rest hname
    rw [totalQty_cons, if_pos (by simp [hname])]
  · intro p n it rest hinv hname hq
    have htot : totalQty n (it :: rest) = it.quantity + totalQty n rest := by
      rw [totalQty_cons, if_pos (by simp [hname])]
    have e : consumeGo n (it :: rest) it.quantity = rest := by
      have h1 : ¬it.quantity = 0 := by omega
      simp [consumeGo, h1, hname, consumeGo_zero]
    rw [Player.consumeItemByName, hinv, htot, if_neg (by omega), e]
  · intro n it rest r hname
    have hnf : (it.name == n) = false := by simpa using hname
    constructor
    · by_cases hr : r = 0
      · subst hr; rw [consumeGo_zero, consumeGo_zero]
      · simp [consumeGo, hr, hnf]
    · rw [totalQty_cons, hnf]
      simp
  · intro ench oreU rcp p
    have hshort : anyIngredientShort p.inventory rcp.ingredients = false := by decide
    rw [quickCraftOnce, if_neg (by simp [hshort])]
    have hcons : craftConsume rcp p = { p with inventory := [] } := by
      rw [craftConsume]
      show ((p.consumeItemByName "Ore" 1).2 : Player) = _
      rw [Player.consumeItemByName, if_neg (by decide)]
      have : consumeGo "Ore" p.inventory 1 = [] := by
        simp [consumeGo, oreU, p]
      rw [this]
    rw [hcons]
    have hout : craftedOutput rcp { p with inventory := [] } = craftedTemplate rcp := by
      rw [craftedOutput, if_neg ?_]
      show ¬(0 < ({ p with inventory := ([] : List LootItem) } :
          Player).craftedSellPriceIncrease.1 ∨ 0 < ({ p with inventory := ([] : List LootItem) } :
          Player).craftedSellPriceIncrease.2)
      have : ({ p with inventory := ([] : List LootItem) } :
          Player).craftedSellPriceIncrease = (0, 0) := rfl
      rw [this]
      norm_num
    rw [hout]
    have hadd : ({ p with inventory := ([] : List LootItem) } : Player).addItem
        (craftedTemplate rcp) = { p with inventory := [craftedTemplate rcp] } := by
      rw [Player.addItem]
      have : invAdd [] (craftedTemplate rcp) = [craftedTemplate rcp] := by
        rw [invAdd, if_neg (by decide)]
        rfl
      rw [this]
    rw [hadd]

/-- C10 witness: the unique-stack conjunct applied to a rarity-bearing
enchanted stack of quantity 2 — the whole stack is destroyed. -/
theorem consume_by_name_exact_name_only_witness :
    let ench : Enchantment := { name := "Sharp", enchant_type := "misc",
                                min_value := 0, max_value := 10, is_percentage := false,
                                cost_amount := 1 }
    let it : LootItem := { name := "Gem", weight := 0, gold_value := 40,
                           item_type := "upgrade", quantity := 2, rarity := some "Epic",
                           enchantments := [(ench, 3)] }
    let p : Player := { name := "A", inventory := [it] }
    p.consumeItemByName "Gem" 2 = (true, { p with inventory := [] }) := by
  intro ench it p
  exact consume_by_name_exact_name_only.2.1 p "Gem" it [] rfl rfl (by norm_num)

/-! ### Claim C8: non-negativity of the gold balance -/

/-- C8 counterexample: the admin `give` command performs an unchecked
`add_gold`, so giving -5 to a fresh player (balance 0) drives the balance
to -5, below zero. -/
theorem give_gold_negative_counterexample :
    (quickGiveGold { name := "A" } (-5)).gold = -5 ∧
    (quickGiveGold { name := "A" } (-5)).gold < 0 := by
  exact ⟨rfl, by decide⟩

/-- C8 as amended.  A fresh player starts at gold 0; `remove_gold`
refuses any deduction exceeding the balance and preserves
non-negativity, as does the admin `take` command built on it; `add_gold`
with a non-negative amount preserves non-negativity — but `add_gold`
itself is unchecked, so the admin `give` command can drive the balance
below zero when handed a negative amount. -/
theorem gold_nonnegative_amended (p : Player) (a : Int) :
    (∀ n : String, ({ name := n } : Player).gold = 0) ∧
    (p.gold < a → p.removeGold a = (false, p)) ∧
    (0 ≤ p.gold → 0 ≤ (p.removeGold a).2.gold) ∧
    (0 ≤ p.gold → 0 ≤ (quickTakeGold p a).gold) ∧
    (0 ≤ p.gold → 0 ≤ a → 0 ≤ (p.addGold a).gold) ∧
    (quickGiveGold { name := "B" } (-5)).gold < 0 := by
  refine ⟨fun _ => rfl, ?_, ?_, ?_, ?_, by decide⟩
  · intro h
    rw [Player.removeGold, if_neg (by omega)]
  · intro h
    rw [Player.removeGold]
    split <;> simp <;> omega
  · intro h
    rw [quickTakeGold, Player.removeGold]
    split <;> simp <;> omega
  · intro h ha
    rw [Player.addGold]
    simp
    omega

/-- C8 witness: the amended theorem applied at a concrete player with
gold 7 and a deduction of 9 (refused) resp. an addition of 3. -/
theorem gold_nonnegative_amended_witness :
    let p : Player := { name := "A", gold := 7 }
    p.removeGold 9 = (false, p) ∧ 0 ≤ (p.addGold 3).gold := by
  intro p
  exact ⟨(gold_nonnegative_amended p 9).2.1 (by norm_num),
         (gold_nonnegative_amended p 3).2.2.2.2.1 (by norm_num) (by norm_num)⟩

/-! ### Claim C7: one-shot `double_next_draw` consumable -/

/-- Doubling applied to one drawn item (quantity and gold value, lines
2986-2987). -/
def doubleItem (it : LootItem) : LootItem :=
  { it with quantity := 2 * it.quantity, gold_value := 2 * it.gold_value }

/-- The value a drawn item would take in the same draw without any
doubling: rarity roll and price boost only. -/
def baseProcessItem (p : Player) (d : DrawnItem) : LootItem :=
  processDrawnItem p false { d with dblRoll := false }

/-- Player used by the C7 counterexample: a queued `double_next_draw`
effect and nothing else. -/
def c7Player : Player :=
  { name := "A", active_consumable_effects :=
      [{ effect_type := "double_next_draw", name := "Lucky Charm" }] }

/-- Drawn item used by the C7 counterexample. -/
def c7Stone : LootItem :=
  { name := "Stone", weight := 0, gold_value := 5, item_type := "misc", quantity := 1 }

theorem c7_base_item :
    processDrawnItem c7Player false { item := c7Stone, dblRoll := false, rar := "Normal" }
      = c7Stone := by
  decide

theorem c7_quick_facts :
    hasQueuedDouble c7Player = true ∧
    (quickDrawProcess c7Player [{ item := c7Stone, dblRoll := false, rar := "Normal" }]).inventory
      = [c7Stone] ∧
    (quickDrawProcess c7Player
        [{ item := c7Stone, dblRoll := false, rar := "Normal" }]).active_consumable_effects
      = c7Player.active_consumable_effects := by
  refine ⟨rfl, ?_, ?_⟩
  · show (c7Player.addItem (processDrawnItem c7Player false
      { item := c7Stone, dblRoll := false, rar := "Normal" })).inventory = [c7Stone]
    rw [c7_base_item, Player.addItem]
    show invAdd [] c7Stone = [c7Stone]
    rw [invAdd, if_neg (by decide)]
    rfl
  · show (c7Player.addItem (processDrawnItem c7Player false
      { item := c7Stone, dblRoll := false, rar := "Normal" })).active_consumable_effects = _
    rfl

/-- C7 counterexample: a player with a queued `double_next_draw` effect
whose next draw goes through the quick `draw` command gets the drawn item
at its original quantity 1 (not doubled), and the effect is still queued
afterwards — the claim fails on the `quick_draw` path. -/
theorem quick_draw_ignores_queued_double :
    hasQueuedDouble c7Player = true ∧
    (quickDrawProcess c7Player [{ item := c7Stone, dblRoll := false, rar := "Normal" }]).inventory
      = [c7Stone] ∧
    c7Stone.quantity = 1 ∧
    (quickDrawProcess c7Player
        [{ item := c7Stone, dblRoll := false, rar := "Normal" }]).active_consumable_effects
      = c7Player.active_consumable_effects :=
  ⟨c7_quick_facts.1, c7_quick_facts.2.1, rfl, c7_quick_facts.2.2⟩

theorem processDrawnItem_double (p : Player) (d : DrawnItem) :
    processDrawnItem p true d = doubleItem (baseProcessItem p d) := by
  rw [processDrawnItem, baseProcessItem, processDrawnItem, doubleItem]
  simp only [if_true, if_pos]
  split
  · split
    · simp
    · simp
  · split
    · simp
    · simp

theorem addItem_active (q : Player) (it : LootItem) :
    (q.addItem it).active_consumable_effects = q.active_consumable_effects := rfl

theorem foldl_addItem_active (f : DrawnItem → LootItem) :
    ∀ (draws : List DrawnItem) (q : Player),
      (draws.foldl (fun q d => q.addItem (f d)) q).active_consumable_effects =
        q.active_consumable_effects := by
  intro draws
  induction draws with
  | nil => intro q; rfl
  | cons d rest ih => intro q; rw [List.foldl_cons, ih, addItem_active]

theorem filter_no_double (l : List ActiveEffect) :
    (l.filter (fun e => !(e.effect_type == "double_next_draw"))).any
      (fun e => e.effect_type == "double_next_draw") = false := by
  induction l with
  | nil => rfl
  | cons e rest ih =>
    rw [List.filter_cons]
    by_cases h : (e.effect_type == "double_next_draw") = true
    · simp [h, ih]
    · have h' : (e.effect_type == "double_next_draw") = false := by simpa using h
      simp [h', ih]

/-- C7 as amended.  A draw performed through the interactive draw menu by
a player with a queued `double_next_draw` effect doubles the quantity and
gold value of every item of that draw (each item is the doubled image of
what it would have been without the effect, for any number of drawn
items), and afterwards every queued `double_next_draw` effect is removed,
so the effect is strictly one-shot on that path; a draw through the quick
`draw` command, however, neither applies nor consumes the effect. -/
theorem menu_draw_double_one_shot (p : Player) (draws : List DrawnItem)
    (h : hasQueuedDouble p = true) :
    menuDrawProcess p draws =
      { draws.foldl (fun q d => q.addItem (doubleItem (baseProcessItem p d))) p with
          active_consumable_effects :=
            p.active_consumable_effects.filter
              (fun e => !(e.effect_type == "double_next_draw")) } ∧
    hasQueuedDouble (menuDrawProcess p draws) = false ∧
    (quickDrawProcess c7Player [{ item := c7Stone, dblRoll := false, rar := "Normal" }]).inventory
      = [c7Stone] := by
  have hfun : (fun (q : Player) (d : DrawnItem) => q.addItem (processDrawnItem p true d)) =
      (fun (q : Player) (d : DrawnItem) => q.addItem (doubleItem (baseProcessItem p d))) := by
    funext q d
    rw [processDrawnItem_double]
  have hmenu : menuDrawProcess p draws =
      { draws.foldl (fun q d => q.addItem (doubleItem (baseProcessItem p d))) p with
          active_consumable_effects :=
            p.active_consumable_effects.filter
              (fun e => !(e.effect_type == "double_next_draw")) } := by
    rw [menuDrawProcess]
    simp only [h, if_true]
    rw [hfun, foldl_addItem_active]
  refine ⟨hmenu, ?_, c7_quick_facts.2.1⟩
  rw [hmenu, hasQueuedDouble]
  exact filter_no_double p.active_consumable_effects

/-- C7 witness: the amended theorem applied to the concrete queued-effect
player drawing one Stone through the menu — the stack is doubled to
quantity 2 value 10 and the effect is gone. -/
theorem menu_draw_double_one_shot_witness :
    menuDrawProcess c7Player [{ item := c7Stone, dblRoll := false, rar := "Normal" }] =
      { name := "A", gold := 0,
        inventory := [{ name := "Stone", weight := 0, gold_value := 10,
                        item_type := "misc", quantity := 2 }],
        equipped_items := [], consumed_upgrades := [], active_consumable_effects := [] } ∧
    hasQueuedDouble
      (menuDrawProcess c7Player [{ item := c7Stone, dblRoll := false, rar := "Normal" }]) =
        false := by
  have h := menu_draw_double_one_shot c7Player
    [{ item := c7Stone, dblRoll := false, rar := "Normal" }] rfl
  refine ⟨?_, h.2.1⟩
  rw [h.1]
  have hbase : baseProcessItem c7Player { item := c7Stone, dblRoll := false, rar := "Normal" }
      = c7Stone := by
    rw [baseProcessItem]
    exact c7_base_item
  have hdbl : doubleItem c7Stone =
      { name := "Stone", weight := 0, gold_value := 10, item_type := "misc", quantity := 2 } := by
    rw [doubleItem]
    simp only [LootItem.mk.injEq, c7Stone]
    norm_num
  simp only [List.foldl_cons, List.foldl_nil, hbase, hdbl]
  rfl

/-! ### Claim C9: table draws hand out deep copies and never touch the
table -/

theorem read_write_ne (st : Store) (i j : Nat) (v : LootItem) (h : i ≠ j) :
    (st.write i v).read j = st.read j := by
  rw [Store.write, Store.read, Store.read]
  rw [List.getD_eq_getElem?_getD, List.getElem?_set_ne h, List.getD_eq_getElem?_getD]

/-- C9.  Drawing from an empty table yields `None` (single draw) or the
empty list (multiple draw) without failing; drawing from a non-empty
table returns exactly `count` references; the table's own cells are left
unchanged by the draw; each returned reference holds a value equal to the
chosen template (a deep copy); mutating any returned reference in any
way never alters the value at any table cell; and the single draw
(`LootTable.draw`) on a non-empty table likewise returns a freshly
allocated reference whose value equals the chosen template, leaves every
table cell unchanged, and whose mutation never alters any table cell. -/
theorem draw_deep_copy (st : Store) (table : List Nat) (count : Nat) (pick : Nat → Nat)
    (hwf : ∀ r ∈ table, r < st.cells.length) :
    (table = [] →
      drawMultipleRefs st table count pick = (st, []) ∧
      ∀ pk, drawRef st table pk = (st, none)) ∧
    (table ≠ [] → (drawMultipleRefs st table count pick).2.length = count) ∧
    (∀ r ∈ table, (drawMultipleRefs st table count pick).1.read r = st.read r) ∧
    (table ≠ [] → ∀ j, j < count →
      (drawMultipleRefs st table count pick).1.read (st.cells.length + j) =
        st.read (table.getD (pick j % table.length) 0)) ∧
    (∀ ρ ∈ (drawMultipleRefs st table count pick).2, ∀ v : LootItem, ∀ r ∈ table,
      ((drawMultipleRefs st table count pick).1.write ρ v).read r = st.read r) ∧
    (table ≠ [] → ∀ pk : Nat,
      (drawRef st table pk).2 = some st.cells.length ∧
      (∀ r ∈ table, (drawRef st table pk).1.read r = st.read r) ∧
      (drawRef st table pk).1.read st.cells.length =
        st.read (table.getD (pk % table.length) 0) ∧
      (∀ v : LootItem, ∀ r ∈ table,
        ((drawRef st table pk).1.write st.cells.length v).read r = st.read r)) := by
  by_cases hemp : table = []
  · subst hemp
    have h1 : drawMultipleRefs st [] count pick = (st, []) := rfl
    have h2 : ∀ pk, drawRef st [] pk = (st, none) := fun _ => rfl
    refine ⟨fun _ => ⟨h1, h2⟩, fun h => absurd rfl h, ?_, fun h => absurd rfl h, ?_,
      fun h => absurd rfl h⟩
    · intro r hr; cases hr
    · rw [h1]
      intro ρ hρ; cases hρ
  · have hne : table.isEmpty = false := by
      cases table
      · exact absurd rfl hemp
      · rfl
    have hdm : drawMultipleRefs st table count pick =
        (⟨st.cells ++ ((List.range count).map
            (fun i => table.getD (pick i % table.length) 0)).map st.read⟩,
          (List.range (((List.range count).map
            (fun i => table.getD (pick i % table.length) 0)).map st.read).length).map
            (fun i => st.cells.length + i)) := by
      rw [drawMultipleRefs, if_neg (by simp [hne])]
    have hcoplen : (((List.range count).map
        (fun i => table.getD (pick i % table.length) 0)).map st.read).length = count := by
      simp
    have hdr : ∀ pk, drawRef st table pk =
        (⟨st.cells ++ [st.read (table.getD (pk % table.length) 0)]⟩,
          some st.cells.length) := by
      intro pk
      rw [drawRef, if_neg (by simp [hne])]
    refine ⟨fun h => absurd h hemp, fun _ => ?_, ?_, fun _ => ?_, ?_, fun _ => ?_⟩
    · rw [hdm]
      simp
    · intro r hr
      rw [hdm, Store.read, Store.read]
      exact List.getD_append _ _ _ _ (hwf r hr)
    · intro j hj
      rw [hdm, Store.read, Store.read]
      rw [List.getD_append_right _ _ _ _ (Nat.le_add_right _ _), Nat.add_sub_cancel_left]
      rw [List.getD_eq_getElem _ _ (by rw [hcoplen]; exact hj)]
      simp [List.getElem_map, List.getElem_range, Store.read, List.getD_eq_getElem?_getD]
    · intro ρ hρ v r hr
      rw [hdm] at hρ
      simp only [List.mem_map, List.mem_range] at hρ
      obtain ⟨i, _, hi⟩ := hρ
      have hρne : ρ ≠ r := by
        have := hwf r hr
        omega
      rw [hdm, read_write_ne _ _ _ _ hρne, Store.read, Store.read]
      exact List.getD_append _ _ _ _ (hwf r hr)
    · intro pk
      refine ⟨by rw [hdr], ?_, ?_, ?_⟩
      · intro r hr
        rw [hdr, Store.read, Store.read]
        exact List.getD_append _ _ _ _ (hwf r hr)
      · rw [hdr, Store.read, Store.read]
        rw [List.getD_append_right _ _ _ _ le_rfl]
        simp [Store.read]
      · intro v r hr
        have hne2 : st.cells.length ≠ r := by
          have := hwf r hr
          omega
        rw [hdr, read_write_ne _ _ _ _ hne2, Store.read, Store.read]
        exact List.getD_append _ _ _ _ (hwf r hr)

/-- C9 witness: a two-item table; drawing two items yields two fresh
references whose values equal the chosen templates, and overwriting one
of them leaves the table cells intact. -/
theorem draw_deep_copy_witness :
    let sword : LootItem := { name := "Sword", weight := 10, gold_value := 50,
                              item_type := "equipment", quantity := 1 }
    let stone : LootItem := { name := "Stone", weight := 90, gold_value := 1,
                              item_type := "misc", quantity := 1 }
    let st : Store := ⟨[sword, stone]⟩
    (drawMultipleRefs st [0, 1] 2 (fun i => i)).2.length = 2 ∧
    (drawMultipleRefs st [0, 1] 2 (fun i => i)).1.read 2 = sword ∧
    (((drawMultipleRefs st [0, 1] 2 (fun i => i)).1.write 2
        { sword with gold_value := 9999 }).read 0) = sword ∧
    (drawRef st [0, 1] 1).1.read 2 = stone ∧
    ((drawRef st [0, 1] 1).1.write 2 { stone with gold_value := 9999 }).read 1 = stone := by
  intro sword stone st
  have h := draw_deep_copy st [0, 1] 2 (fun i => i) (by decide)
  refine ⟨h.2.1 (by decide), ?_, ?_, ?_, ?_⟩
  · have h2 := h.2.2.2.1 (by decide) 0 (by norm_num)
    simpa using h2
  · have hmem : 2 ∈ (drawMultipleRefs st [0, 1] 2 (fun i => i)).2 := by
      have hlen := h.2.1 (by decide)
      rw [drawMultipleRefs, if_neg (by decide)]
      simp
    have h5 := h.2.2.2.2.1 2 hmem { sword with gold_value := 9999 } 0 (by decide)
    simpa using h5
  · have h6 := (h.2.2.2.2.2 (by decide) 1).2.2.1
    simpa using h6
  · have h7 := (h.2.2.2.2.2 (by decide) 1).2.2.2 { stone with gold_value := 9999 } 1 (by decide)
    simpa using h7

end LootSim
